import Mathlib

/-!
# Raw HTTP request transmitter: header codec and transmission model

Shallow embedding of the raw HTTP request transmitter module
(`sendRequest`, `pairFlatRawHeaders`, `flattenPairedRawHeaders`) and the
data model around it (`RawHeaders`, `RequestDefinition`, the response
stream events).

JavaScript runtime conventions used throughout the embedding:
* a JS value that is either a string or `undefined` is modelled as
  `Option String`, with `none` standing for `undefined`;
* out-of-bounds array indexing, which yields `undefined` in JS, is
  modelled with `List.getElem?`;
* byte buffers (`Uint8Array` / `Buffer`) are modelled as `List Nat`.
-/

/-- `RawHeaders`: ordered list of `[key, value]` pairs.  Order and
duplicates are significant; no normalization is applied anywhere. -/
abbrev RawHeaders := List (String × String)

/-- `pairFlatRawHeaders`: turns a flat `[k, v, k, v, ...]` list into
pairwise tuples.  The source loop is
`for (i = 0; i < flat.length; i += 2) result[i/2] = [flat[i], flat[i+1]]`;
each iteration consumes the two entries `flat[i]` and `flat[i+1]`.  The
key index `i` is always in bounds; for an odd-length input the final
value index `i+1` is out of bounds and reads `undefined`, hence the value
component of a produced pair is `Option String` (`none` = `undefined`). -/
def pairFlatRawHeaders : List String → List (String × Option String)
  | [] => []
  | [k] => [(k, none)]
  | k :: v :: rest => (k, some v) :: pairFlatRawHeaders rest

/-- `flattenPairedRawHeaders`: turns `[[k, v], [k, v], ...]` tuples into
the flat `[k, v, k, v, ...]` list, via `rawHeaders.flat()` (one level of
flattening: map each pair to its two entries and concatenate). -/
def flattenPairedRawHeaders (rawHeaders : RawHeaders) : List String :=
  (rawHeaders.map (fun kv => [kv.1, kv.2])).flatten

/-- The runtime representation of a fully defined `RawHeaders` value: every
key and value is an actual string (never `undefined`). -/
def liftRawHeaders (h : RawHeaders) : List (String × Option String) :=
  h.map (fun kv => (kv.1, some kv.2))

theorem flattenPaired_cons (kv : String × String) (t : RawHeaders) :
    flattenPairedRawHeaders (kv :: t) = kv.1 :: kv.2 :: flattenPairedRawHeaders t := by
  simp [flattenPairedRawHeaders]

theorem pairFlat_flatten (h : RawHeaders) :
    pairFlatRawHeaders (flattenPairedRawHeaders h) = liftRawHeaders h := by
  induction h with
  | nil => rfl
  | cons kv t ih =>
      rw [flattenPaired_cons]
      simpa [pairFlatRawHeaders, liftRawHeaders] using ih

theorem pairFlat_length (l : List String) :
    (pairFlatRawHeaders l).length = (l.length + 1) / 2 := by
  induction l using pairFlatRawHeaders.induct with
  | case1 => rfl
  | case2 k => simp [pairFlatRawHeaders]
  | case3 k v rest ih => simp [pairFlatRawHeaders, ih]; omega

/-- C2: for every `RawHeaders` list `h` (duplicate keys and empty values
included), `pairFlatRawHeaders (flattenPairedRawHeaders h)` is exactly `h`
again (as a runtime value: every component defined, same keys, same
values, same order). -/
theorem pairFlat_of_flattenPaired_eq_self (h : RawHeaders) :
    pairFlatRawHeaders (flattenPairedRawHeaders h) = liftRawHeaders h :=
  pairFlat_flatten h

/-- C10: for every flat list of even length, flattening the paired form
produced by `pairFlatRawHeaders` gives back the original flat list (the
round trip also holds starting from the wire representation, and the
intermediate paired form is a genuine fully-defined `RawHeaders`). -/
theorem flattenPaired_of_pairFlat_eq_self (l : List String) (hl : l.length % 2 = 0) :
    ∃ h : RawHeaders, pairFlatRawHeaders l = liftRawHeaders h ∧
      flattenPairedRawHeaders h = l := by
  induction l using pairFlatRawHeaders.induct with
  | case1 => exact ⟨[], rfl, rfl⟩
  | case2 k => simp at hl
  | case3 k v rest ih =>
      have hr : rest.length % 2 = 0 := by
        simp [List.length_cons] at hl
        omega
      obtain ⟨h, hp, hf⟩ := ih hr
      refine ⟨(k, v) :: h, ?_, ?_⟩
      · simp [pairFlatRawHeaders, liftRawHeaders] at hp ⊢
        exact hp
      · rw [flattenPaired_cons, hf]

/-- Witness for C10 at the concrete flat list `["a", "b", "c", "d"]`. -/
theorem flattenPaired_of_pairFlat_eq_self_witness :
    (["a", "b", "c", "d"] : List String).length % 2 = 0 ∧
    ∃ h : RawHeaders, pairFlatRawHeaders ["a", "b", "c", "d"] = liftRawHeaders h ∧
      flattenPairedRawHeaders h = ["a", "b", "c", "d"] :=
  ⟨by decide, flattenPaired_of_pairFlat_eq_self ["a", "b", "c", "d"] (by decide)⟩

/-- C5: on a flat list of odd length `pairFlatRawHeaders` performs no
validation: it still returns `(length + 1) / 2` pairs, and the trailing
pair is malformed — its value component is `undefined` (`none`), which is
not one of the input strings. -/
theorem pairFlat_oddLength_malformedTail (l : List String) (hl : l.length % 2 = 1) :
    (pairFlatRawHeaders l).length = (l.length + 1) / 2 ∧
    ∃ p : String × Option String, (pairFlatRawHeaders l).getLast? = some p ∧
      p.2 = none ∧ ∀ s ∈ l, p.2 ≠ some s := by
  refine ⟨pairFlat_length l, ?_⟩
  induction l using pairFlatRawHeaders.induct with
  | case1 => simp at hl
  | case2 k => exact ⟨(k, none), rfl, rfl, by simp⟩
  | case3 k v rest ih =>
      have hr : rest.length % 2 = 1 := by
        simp [List.length_cons] at hl
        omega
      obtain ⟨p, hlast, hnone, _⟩ := ih hr
      refine ⟨p, ?_, hnone, ?_⟩
      · simp [pairFlatRawHeaders, List.getLast?_cons, hlast]
      · intro s _
        rw [hnone]
        simp

/-- Witness for C5 at the concrete odd-length flat list `["a", "b", "c"]`. -/
theorem pairFlat_oddLength_malformedTail_witness :
    (["a", "b", "c"] : List String).length % 2 = 1 ∧
    ((pairFlatRawHeaders ["a", "b", "c"]).length = ((["a", "b", "c"] : List String).length + 1) / 2 ∧
    ∃ p : String × Option String, (pairFlatRawHeaders ["a", "b", "c"]).getLast? = some p ∧
      p.2 = none ∧ ∀ s ∈ (["a", "b", "c"] : List String), p.2 ≠ some s) :=
  ⟨by decide, pairFlat_oddLength_malformedTail ["a", "b", "c"] (by decide)⟩

/-- C6: on a flat list of even length `2 * n`, `pairFlatRawHeaders`
returns exactly `n` pairs, the `i`-th pair being
`(input[2i], input[2i+1])` in input order; and `flattenPairedRawHeaders`
returns the in-order concatenation of each pair's key followed by its
value (positionally: entry `2j` is the `j`-th key and entry `2j+1` the
`j`-th value). -/
theorem pairFlat_positions_and_flatten_positions (l : List String) (n : Nat)
    (hl : l.length = 2 * n) (h : RawHeaders) :
    ((pairFlatRawHeaders l).length = n ∧
      ∀ i, i < n → ∃ k v, l[2 * i]? = some k ∧ l[2 * i + 1]? = some v ∧
        (pairFlatRawHeaders l)[i]? = some (k, some v)) ∧
    ((flattenPairedRawHeaders h).length = 2 * h.length ∧
      ∀ j, j < h.length → ∃ kv, h[j]? = some kv ∧
        (flattenPairedRawHeaders h)[2 * j]? = some kv.1 ∧
        (flattenPairedRawHeaders h)[2 * j + 1]? = some kv.2) := by
  constructor
  · induction l using pairFlatRawHeaders.induct generalizing n with
    | case1 =>
        have : n = 0 := by simpa using hl.symm
        subst this
        exact ⟨rfl, by omega⟩
    | case2 k => simp at hl; omega
    | case3 k v rest ih =>
        obtain ⟨m, rfl⟩ : ∃ m, n = m + 1 := by
          rcases n with _ | m
          · simp at hl
          · exact ⟨m, rfl⟩
        have hrest : rest.length = 2 * m := by simp at hl; omega
        obtain ⟨ihlen, ihpos⟩ := ih m hrest
        constructor
        · simp [pairFlatRawHeaders, ihlen]
        · intro i hi
          rcases i with _ | j
          · exact ⟨k, v, by simp, by simp, by simp [pairFlatRawHeaders]⟩
          · obtain ⟨k2, v2, hk2, hv2, hpair⟩ := ihpos j (by omega)
            refine ⟨k2, v2, ?_, ?_, ?_⟩
            · have e : 2 * (j + 1) = 2 * j + 1 + 1 := by ring
              rw [e, List.getElem?_cons_succ, List.getElem?_cons_succ]
              exact hk2
            · have e : 2 * (j + 1) + 1 = 2 * j + 1 + 1 + 1 := by ring
              rw [e, List.getElem?_cons_succ, List.getElem?_cons_succ]
              exact hv2
            · simpa [pairFlatRawHeaders] using hpair
  · induction h with
    | nil => exact ⟨rfl, by simp⟩
    | cons kv t ih =>
        obtain ⟨ihlen, ihpos⟩ := ih
        constructor
        · rw [flattenPaired_cons]
          simp [ihlen]
          ring
        · intro j hj
          rcases j with _ | j
          · exact ⟨kv, by simp, by simp [flattenPaired_cons], by simp [flattenPaired_cons]⟩
          · obtain ⟨kv2, hkv2, hk2, hv2⟩ := ihpos j (by simpa using hj)
            refine ⟨kv2, by simpa using hkv2, ?_, ?_⟩
            · have e : 2 * (j + 1) = 2 * j + 1 + 1 := by ring
              rw [flattenPaired_cons, e, List.getElem?_cons_succ, List.getElem?_cons_succ]
              exact hk2
            · have e : 2 * (j + 1) + 1 = 2 * j + 1 + 1 + 1 := by ring
              rw [flattenPaired_cons, e, List.getElem?_cons_succ, List.getElem?_cons_succ]
              exact hv2

/-- Witness for C6 at the concrete flat list `["k1", "v1", "k2", "v2"]`
(`n = 2`) and the concrete paired list `[("a", "b")]`. -/
theorem pairFlat_positions_and_flatten_positions_witness :
    (["k1", "v1", "k2", "v2"] : List String).length = 2 * 2 ∧
    (((pairFlatRawHeaders ["k1", "v1", "k2", "v2"]).length = 2 ∧
      ∀ i, i < 2 → ∃ k v, (["k1", "v1", "k2", "v2"] : List String)[2 * i]? = some k ∧
        (["k1", "v1", "k2", "v2"] : List String)[2 * i + 1]? = some v ∧
        (pairFlatRawHeaders ["k1", "v1", "k2", "v2"])[i]? = some (k, some v)) ∧
    ((flattenPairedRawHeaders [("a", "b")]).length = 2 * ([("a", "b")] : RawHeaders).length ∧
      ∀ j, j < ([("a", "b")] : RawHeaders).length → ∃ kv, ([("a", "b")] : RawHeaders)[j]? = some kv ∧
        (flattenPairedRawHeaders [("a", "b")])[2 * j]? = some kv.1 ∧
        (flattenPairedRawHeaders [("a", "b")])[2 * j + 1]? = some kv.2)) :=
  ⟨by decide,
    pairFlat_positions_and_flatten_positions ["k1", "v1", "k2", "v2"] 2 (by decide) [("a", "b")]⟩

/-!
## Request transmission

`sendRequest` builds the outgoing wire request synchronously (transport
selection, header suppression, raw header store, body write) and emits a
typed event stream.  The synchronous half is embedded as a pure function
producing a `ClientRequest` record; the asynchronous half as a function
from an abstract transport outcome to the emitted event list.
-/

/-- `RequestDefinition`: `{ method, url, headers, rawBody? }`.  `rawBody`
is an optional byte buffer (`none` = absent). -/
structure RequestDefinition where
  method : String
  url : String
  headers : RawHeaders
  rawBody : Option (List Nat) := none

/-- The two transports the transmitter can open a connection with: the
plain module (`http`) or the TLS module (`https`). -/
inductive Transport
  | plain
  | tls
deriving DecidableEq

/-- The WHATWG `URL.protocol` accessor used at the transport-selection
site: it returns the URL's scheme in ASCII lowercase followed by the
final `":"` (e.g. `"https:"` for an `https://` URL).  Modelled here as
the lowercased prefix of the URL up to the first `":"`, with the `":"`
appended, which agrees with the accessor on absolute URLs. -/
def urlProtocol (url : String) : String :=
  String.mk ((url.data.takeWhile (fun c => c ≠ ':')).map Char.toLower) ++ ":"

/-- The transport chosen by `sendRequest`, from the source ternary
`url.protocol === 'https' ? https : http`. -/
def selectTransport (url : String) : Transport :=
  if urlProtocol url = "https" then Transport.tls else Transport.plain

/-- The request target path the transport derives from the URL (the part
from the first `/` after the scheme-and-host prefix).  Its exact value is
not load-bearing for any property below. -/
def urlPath (url : String) : String :=
  let afterScheme := (url.data.dropWhile (fun c => c ≠ ':')).drop 3
  let path := afterScheme.dropWhile (fun c => c ≠ '/')
  if path.isEmpty then "/" else String.mk path

/-- Modelled from the spec: the transport's client request object (the
collaborator consumed as a black box).  The transport can automatically
synthesize Connection, Transfer-Encoding and Content-Length headers;
each can be suppressed by removing the corresponding header before the
header block is stored.  Host is synthesized only on the managed-headers
path, never when an explicit raw header list is stored.  `header` holds
the stored status line and flat raw header block once written. -/
structure ClientRequest where
  transport : Transport
  method : String
  path : String
  removedConnection : Bool := false
  removedContentLength : Bool := false
  removedTransferEncoding : Bool := false
  header : Option (String × List String) := none
  body : List Nat := []
  ended : Bool := false
  destroyed : Bool := false

/-- Modelled from the spec: `request.removeHeader(name)` marks the named
auto-synthesized header as suppressed. -/
def removeHeader (req : ClientRequest) (name : String) : ClientRequest :=
  if name = "connection" then { req with removedConnection := true }
  else if name = "transfer-encoding" then { req with removedTransferEncoding := true }
  else if name = "content-length" then { req with removedContentLength := true }
  else req

/-- Modelled from the spec: the transport's raw header store
(`_storeHeader(firstLine, flatHeaders)`).  It writes the given status
line and exactly the given flat raw header entries, appending an
automatically synthesized entry for Connection, Content-Length or
Transfer-Encoding only when that header has not been removed; it never
synthesizes Host on this raw path. -/
def storeHeader (req : ClientRequest) (firstLine : String) (flatHeaders : List String) :
    ClientRequest :=
  { req with header := some (firstLine,
      flatHeaders
        ++ (if req.removedConnection then [] else ["Connection", "keep-alive"])
        ++ (if req.removedContentLength then [] else ["Content-Length", "0"])
        ++ (if req.removedTransferEncoding then [] else ["Transfer-Encoding", "chunked"])) }

/-- The synchronous half of `sendRequest`: open the request on the
selected transport, remove the three auto-synthesized headers, store the
status line with the flattened caller headers, then end the request with
the raw body when it is present and non-empty (`rawBody?.byteLength`
truthy) and with no body otherwise. -/
def sendRequestWire (defn : RequestDefinition) : ClientRequest :=
  let req : ClientRequest :=
    { transport := selectTransport defn.url, method := defn.method, path := urlPath defn.url }
  let req := removeHeader req "connection"
  let req := removeHeader req "transfer-encoding"
  let req := removeHeader req "content-length"
  let req := storeHeader req (defn.method ++ " " ++ urlPath defn.url ++ " HTTP/1.1\r\n")
    (flattenPairedRawHeaders defn.headers)
  match defn.rawBody with
  | some b => if b.length ≠ 0 then { req with body := b, ended := true }
              else { req with ended := true }
  | none => { req with ended := true }

theorem urlProtocol_data (url : String) :
    (urlProtocol url).data =
      ((url.data.takeWhile (fun c => c ≠ ':')).map Char.toLower) ++ [':'] := rfl

theorem urlProtocol_ne_https (url : String) : urlProtocol url ≠ "https" := by
  intro h
  have hd := congrArg String.data h
  rw [urlProtocol_data] at hd
  have hlast := congrArg List.getLast? hd
  rw [List.getLast?_concat] at hlast
  have hs : ("https" : String).data.getLast? = some 's' := by decide
  rw [hs] at hlast
  exact (by decide : (some ':' : Option Char) ≠ some 's') hlast

/-- C1 (counterexample evaluation, and the general divergence): the
transport-selection site compares `url.protocol` against `"https"`, but
the `protocol` accessor always carries the trailing `":"` (for an https
URL it is `"https:"`), so the comparison is false for every URL and
`sendRequest` always opens the plain (non-TLS) transport — including for
the https URL `"https://example.com/"`. -/
theorem selectTransport_always_plain :
    urlProtocol "https://example.com/" = "https:" ∧
    selectTransport "https://example.com/" = Transport.plain ∧
    (sendRequestWire
        { method := "GET", url := "https://example.com/", headers := [] }).transport =
      Transport.plain ∧
    ∀ url : String, selectTransport url = Transport.plain := by
  refine ⟨by decide, by decide, by decide, ?_⟩
  intro url
  unfold selectTransport
  rw [if_neg (urlProtocol_ne_https url)]

/-- C3: the header block stored on the wire is exactly the status line
plus the caller's headers flattened in order — duplicates preserved,
nothing added, removed, or reordered.  Re-pairing the wire block yields
the caller's header list exactly, so in particular its keys are exactly
the caller's keys: no Host, Content-Length, Transfer-Encoding, or
Connection entry exists unless present in `definition.headers`. -/
theorem sendRequestWire_header_exact (defn : RequestDefinition) :
    (sendRequestWire defn).header =
      some (defn.method ++ " " ++ urlPath defn.url ++ " HTTP/1.1\r\n",
        flattenPairedRawHeaders defn.headers) ∧
    pairFlatRawHeaders (flattenPairedRawHeaders defn.headers) = liftRawHeaders defn.headers ∧
    (pairFlatRawHeaders (flattenPairedRawHeaders defn.headers)).map Prod.fst =
      defn.headers.map Prod.fst := by
  refine ⟨?_, pairFlat_flatten defn.headers, ?_⟩
  · unfold sendRequestWire removeHeader storeHeader
    cases defn.rawBody with
    | none => simp
    | some b =>
        by_cases hb : b.length ≠ 0
        · simp [hb]
        · simp [hb]
  · rw [pairFlat_flatten]
    simp [liftRawHeaders]

/-- C8: the body written on the wire is the raw body exactly when it is
present and non-empty, and empty otherwise (`body = rawBody.getD []`
covers both: an absent or empty `rawBody` writes no bytes), and the
request is terminated in every case. -/
theorem sendRequestWire_body_and_end (defn : RequestDefinition) :
    (sendRequestWire defn).body = defn.rawBody.getD [] ∧
    (sendRequestWire defn).ended = true := by
  unfold sendRequestWire
  cases defn.rawBody with
  | none => simp [storeHeader, removeHeader]
  | some b =>
      by_cases hb : b.length ≠ 0
      · simp [hb]
      · simp only [ne_eq, not_not, List.length_eq_zero] at hb
        subst hb
        simp [storeHeader, removeHeader]

/-!
## Response event stream

The stream pushed by `sendRequest` is embedded as the list of events
emitted for one request, as a function of an abstract transport outcome:
the request either errors before any response, or delivers a response
head followed by body chunks and then either a clean body end or a body
error.  (Node stream contract: a response emits `end` or `error`,
exclusively.)  The `clock` argument supplies the successive
`performance.now()` readings; `startTime` the `Date.now()` reading. -/

/-- The typed events pushed on the result stream. -/
inductive ResponseStreamEvent
  | requestStart (startTime : Nat) (timestamp : Nat)
  | responseHead (statusCode : Nat) (statusMessage : Option String)
      (headers : List (String × Option String)) (timestamp : Nat)
  | responseBodyPart (rawBody : List Nat) (timestamp : Nat)
  | responseEnd (timestamp : Nat)
deriving DecidableEq

/-- How the transport concludes one request, seen from the callbacks
wired in `sendRequest`: an error on the request before any response, or a
response (status, raw flat headers, body chunks) whose body either ends
cleanly or errors. -/
inductive BodyTermination
  | clean
  | errored (msg : String)

inductive TransportOutcome
  | requestError (msg : String)
  | response (statusCode : Nat) (statusMessage : Option String) (rawHeaders : List String)
      (chunks : List (List Nat)) (bodyTerm : BodyTermination)

/-- How the result stream terminates: clean end (`push(null)`) or
destruction with an error. -/
inductive StreamTermination
  | ended
  | destroyed (msg : String)
deriving DecidableEq

/-- What one `sendRequest` call emits: the pushed events in order, the
stream termination, and whether the underlying request/connection was
destroyed. -/
structure EmissionResult where
  events : List ResponseStreamEvent
  streamTerm : StreamTermination
  requestDestroyed : Bool

def isRequestStart : ResponseStreamEvent → Bool
  | .requestStart _ _ => true
  | _ => false

def isResponseHead : ResponseStreamEvent → Bool
  | .responseHead _ _ _ _ => true
  | _ => false

def isResponseBodyPart : ResponseStreamEvent → Bool
  | .responseBodyPart _ _ => true
  | _ => false

def isResponseEnd : ResponseStreamEvent → Bool
  | .responseEnd _ => true
  | _ => false

/-- One `response-body-part` event per delivered chunk, carrying the
chunk's raw bytes unaltered, in arrival order. -/
def bodyPartEvents (clock : Nat → Nat) (chunks : List (List Nat)) :
    List ResponseStreamEvent :=
  chunks.enum.map (fun ic => ResponseStreamEvent.responseBodyPart ic.2 (clock (2 + ic.1)))

/-- The asynchronous half of `sendRequest` (the promise handlers): on a
request error, no event and the stream is destroyed with the error and
the request destroyed (`catch` path); on a response, a `response-head`
event (headers re-paired via the codec from the flat raw list), one
body-part event per chunk, then on clean body end a `response-end` event
followed by stream end (`push(null)`), and on a body error stream
destruction with the error. -/
def responseEvents (clock : Nat → Nat) (outcome : TransportOutcome) : EmissionResult :=
  match outcome with
  | .requestError e =>
      { events := [], streamTerm := .destroyed e, requestDestroyed := true }
  | .response code msg rawHeaders chunks bodyTerm =>
      let head := ResponseStreamEvent.responseHead code msg (pairFlatRawHeaders rawHeaders)
        (clock 1)
      match bodyTerm with
      | .clean =>
          { events := head :: bodyPartEvents clock chunks
              ++ [ResponseStreamEvent.responseEnd (clock (2 + chunks.length))],
            streamTerm := .ended, requestDestroyed := false }
      | .errored e =>
          { events := head :: bodyPartEvents clock chunks,
            streamTerm := .destroyed e, requestDestroyed := false }

/-- The events pushed synchronously, before `sendRequest` returns and
before any I/O completes: exactly one `request-start`, carrying the
wall-clock send time (`Date.now()`) and a monotonic timestamp
(`performance.now()`). -/
def syncEvents (startTime : Nat) (clock : Nat → Nat) : List ResponseStreamEvent :=
  [ResponseStreamEvent.requestStart startTime (clock 0)]

/-- Everything one `sendRequest` call pushes on the result stream: the
synchronous `request-start`, then the outcome-dependent events. -/
def sendRequestEvents (startTime : Nat) (clock : Nat → Nat) (outcome : TransportOutcome) :
    EmissionResult :=
  let r := responseEvents clock outcome
  { r with events := syncEvents startTime clock ++ r.events }

/-- The full `sendRequest`: the wire request built synchronously and the
emitted event stream. -/
def sendRequest (defn : RequestDefinition) (startTime : Nat) (clock : Nat → Nat)
    (outcome : TransportOutcome) : ClientRequest × EmissionResult :=
  (sendRequestWire defn, sendRequestEvents startTime clock outcome)

theorem mem_bodyPartEvents (clock : Nat → Nat) (chunks : List (List Nat))
    (e : ResponseStreamEvent) (he : e ∈ bodyPartEvents clock chunks) :
    isResponseBodyPart e = true := by
  simp only [bodyPartEvents, List.mem_map] at he
  obtain ⟨ic, _, rfl⟩ := he
  rfl

theorem bodyPartEvents_countP_bodyPart (clock : Nat → Nat) (chunks : List (List Nat)) :
    (bodyPartEvents clock chunks).countP isResponseBodyPart =
      (bodyPartEvents clock chunks).length := by
  rw [List.countP_eq_length]
  exact fun e he => mem_bodyPartEvents clock chunks e he

theorem bodyPartEvents_countP_eq_zero (clock : Nat → Nat) (chunks : List (List Nat))
    (p : ResponseStreamEvent → Bool)
    (hp : ∀ e, isResponseBodyPart e = true → p e = false) :
    (bodyPartEvents clock chunks).countP p = 0 := by
  rw [List.countP_eq_zero]
  intro e he
  simp [hp e (mem_bodyPartEvents clock chunks e he)]

theorem isResponseEnd_eval_start (a b : Nat) :
    isResponseEnd (ResponseStreamEvent.requestStart a b) = false := rfl

theorem isResponseEnd_eval_head (c : Nat) (m : Option String)
    (h : List (String × Option String)) (t : Nat) :
    isResponseEnd (ResponseStreamEvent.responseHead c m h t) = false := rfl

theorem isResponseEnd_eval_end (t : Nat) :
    isResponseEnd (ResponseStreamEvent.responseEnd t) = true := rfl

/-- C4: for every execution (every transport outcome), the emitted event
sequence satisfies the lifecycle order: the first event exists and is a
`request-start`, and it is the only one; at most one `response-head`;
every `response-body-part` lies at or after the first `response-head`
(so a head, if present, precedes every body part, and without a head
there are no body parts); from the first `response-end` onward at most
one event remains (a `response-end`, if emitted, is the final event, so
nothing — error included — follows it); and a `response-end` is emitted
exactly when the stream terminates cleanly, never together with an error
termination. -/
theorem sendRequestEvents_lifecycle (startTime : Nat) (clock : Nat → Nat)
    (outcome : TransportOutcome) :
    (sendRequestEvents startTime clock outcome).events.head? =
        some (ResponseStreamEvent.requestStart startTime (clock 0)) ∧
    (sendRequestEvents startTime clock outcome).events.countP isRequestStart = 1 ∧
    (sendRequestEvents startTime clock outcome).events.countP isResponseHead ≤ 1 ∧
    (sendRequestEvents startTime clock outcome).events.countP isResponseBodyPart =
      ((sendRequestEvents startTime clock outcome).events.dropWhile
        (fun e => !(isResponseHead e))).countP isResponseBodyPart ∧
    ((sendRequestEvents startTime clock outcome).events.dropWhile
        (fun e => !(isResponseEnd e))).length ≤ 1 ∧
    ((sendRequestEvents startTime clock outcome).events.countP isResponseEnd ≠ 0 ↔
      (sendRequestEvents startTime clock outcome).streamTerm = StreamTermination.ended) := by
  have hbs : ∀ e, isResponseBodyPart e = true → isRequestStart e = false := by
    intro e he
    cases e <;> simp_all [isResponseBodyPart, isRequestStart]
  have hbh : ∀ e, isResponseBodyPart e = true → isResponseHead e = false := by
    intro e he
    cases e <;> simp_all [isResponseBodyPart, isResponseHead]
  have hbe : ∀ e, isResponseBodyPart e = true → isResponseEnd e = false := by
    intro e he
    cases e <;> simp_all [isResponseBodyPart, isResponseEnd]
  cases outcome with
  | requestError e =>
      refine ⟨rfl, ?_, ?_, ?_, ?_, ?_⟩ <;>
        simp [sendRequestEvents, responseEvents, syncEvents, isRequestStart, isResponseHead,
          isResponseBodyPart, isResponseEnd, List.countP_cons]
  | response code msg rawHeaders chunks bodyTerm =>
      have hcs := bodyPartEvents_countP_eq_zero clock chunks isRequestStart hbs
      have hch := bodyPartEvents_countP_eq_zero clock chunks isResponseHead hbh
      have hce := bodyPartEvents_countP_eq_zero clock chunks isResponseEnd hbe
      have hde : (bodyPartEvents clock chunks).dropWhile (fun e => !(isResponseEnd e)) = [] := by
        rw [List.dropWhile_eq_nil_iff]
        intro x hx
        simp [hbe x (mem_bodyPartEvents clock chunks x hx)]
      cases bodyTerm with
      | clean =>
          refine ⟨rfl, ?_, ?_, ?_, ?_, ?_⟩
          · simp [sendRequestEvents, responseEvents, syncEvents, List.countP_cons,
              List.countP_append, isRequestStart, hcs]
          · simp [sendRequestEvents, responseEvents, syncEvents, List.countP_cons,
              List.countP_append, isResponseHead, hch]
          · simp [sendRequestEvents, responseEvents, syncEvents, List.countP_cons,
              List.countP_append, List.dropWhile_cons, isResponseHead, isRequestStart,
              isResponseBodyPart, isResponseEnd]
          · simp [sendRequestEvents, responseEvents, syncEvents, List.dropWhile_cons,
              List.dropWhile_append, hde, isResponseEnd_eval_start, isResponseEnd_eval_head,
              isResponseEnd_eval_end]
          · simp [sendRequestEvents, responseEvents, syncEvents, List.countP_cons,
              List.countP_append, isResponseEnd, hce]
      | errored err =>
          refine ⟨rfl, ?_, ?_, ?_, ?_, ?_⟩
          · simp [sendRequestEvents, responseEvents, syncEvents, List.countP_cons,
              isRequestStart, hcs]
          · simp [sendRequestEvents, responseEvents, syncEvents, List.countP_cons,
              isResponseHead, hch]
          · simp [sendRequestEvents, responseEvents, syncEvents, List.countP_cons,
              List.dropWhile_cons, isResponseHead, isRequestStart, isResponseBodyPart,
              isResponseEnd]
          · simp [sendRequestEvents, responseEvents, syncEvents, List.dropWhile_cons,
              hde, isResponseEnd_eval_start, isResponseEnd_eval_head]
          · simp [sendRequestEvents, responseEvents, syncEvents, List.countP_cons,
              isResponseEnd, hce]

/-- C7: the `request-start` event — carrying the wall-clock send time and
the first monotonic timestamp — is the entire synchronously-pushed
prefix, emitted before any I/O completes: it does not depend on the
transport outcome, and for every outcome it is the first event of the
returned stream. -/
theorem sendRequestEvents_requestStart_first (startTime : Nat) (clock : Nat → Nat)
    (outcome : TransportOutcome) :
    syncEvents startTime clock = [ResponseStreamEvent.requestStart startTime (clock 0)] ∧
    (sendRequestEvents startTime clock outcome).events =
      syncEvents startTime clock ++ (responseEvents clock outcome).events ∧
    (sendRequestEvents startTime clock outcome).events.head? =
      some (ResponseStreamEvent.requestStart startTime (clock 0)) ∧
    ∀ other : TransportOutcome,
      (sendRequestEvents startTime clock outcome).events.take 1 =
        (sendRequestEvents startTime clock other).events.take 1 := by
  refine ⟨rfl, rfl, ?_, ?_⟩
  · simp [sendRequestEvents, syncEvents]
  · intro other
    simp [sendRequestEvents, syncEvents]

/-- Modelled from the spec: when the cancellation signal fires before any
response head has arrived, the transport aborts the in-flight request
(the abort listener calls into the transport), which surfaces as an error
on the request before any response — i.e. the transport outcome is a
request error carrying the cancellation error. -/
def cancelledBeforeResponseOutcome (e : String) : TransportOutcome :=
  TransportOutcome.requestError e

/-- C9: when cancellation fires before any `response-head` has been
emitted, the stream terminates destroyed with the cancellation error, no
`response-head` (and no other successful-path event beyond the initial
`request-start`) is ever emitted, and the underlying request/connection
is destroyed. -/
theorem sendRequest_cancelledBeforeHead (startTime : Nat) (clock : Nat → Nat) (e : String) :
    (sendRequestEvents startTime clock (cancelledBeforeResponseOutcome e)).events.countP
        isResponseHead = 0 ∧
    (sendRequestEvents startTime clock (cancelledBeforeResponseOutcome e)).events =
      [ResponseStreamEvent.requestStart startTime (clock 0)] ∧
    (sendRequestEvents startTime clock (cancelledBeforeResponseOutcome e)).streamTerm =
      StreamTermination.destroyed e ∧
    (sendRequestEvents startTime clock (cancelledBeforeResponseOutcome e)).requestDestroyed =
      true := by
  refine ⟨?_, rfl, rfl, rfl⟩
  simp [sendRequestEvents, responseEvents, syncEvents, cancelledBeforeResponseOutcome,
    isResponseHead, List.countP_cons]
